import Mathlib

/-!
Verification of the include/exclude filtering core of the repository
(`pkg/util/collections/includes_excludes.go`).

The Go code stores patterns in `sets.String` (k8s.io/apimachinery), whose
`List()` method returns the distinct members in lexicographically sorted
order.  We embed such a set directly as the sorted duplicate-free list that
`List()` returns; `Insert` becomes sorted insertion, `Has` becomes list
membership, `Len` becomes list length.

Glob matching is performed by the external gobwas/glob library (not part of
this repository).  Modelled from the spec: a glob pattern supports `*`
(match any sequence), `?` (match any single character), character classes
`[...]` (with leading `!` for negation; ranges are not modelled) and
backslash escapes, matched against the full candidate string; a pattern
whose class or trailing escape is unterminated fails to compile.
Compilation is a left fold over the characters (kernel-executable), and
matching is a standard NFA-style simulation over suffixes of the candidate.
-/

/-- Strict order on characters by code point, as a computable Boolean. -/
def charLt (a b : Char) : Bool := Nat.blt a.toNat b.toNat

/-- Lexicographic strict order on character lists (the order `sort.Strings`
uses, restricted to the code-point comparison that agrees with byte order
on ASCII). -/
def charListLt : List Char → List Char → Bool
  | [], [] => false
  | [], _ :: _ => true
  | _ :: _, [] => false
  | a :: as, b :: bs =>
    if charLt a b then true
    else if charLt b a then false
    else charListLt as bs

/-- Lexicographic strict order on strings. -/
def strLt (a b : String) : Bool := charListLt a.data b.data

/-- Sorted insertion into a sorted duplicate-free list: the effect of
`sets.String.Insert` of one item, viewed through `List()`. -/
def insertSorted (x : String) : List String → List String
  | [] => [x]
  | y :: ys =>
    if x = y then y :: ys
    else if strLt x y then x :: y :: ys
    else y :: insertSorted x ys

/-- `sets.NewString(items...)` viewed through `List()`: the sorted
duplicate-free list of the given items. -/
def NewStringSet (items : List String) : List String :=
  items.foldl (fun s x => insertSorted x s) []

/-- A compiled glob token. -/
inductive GTok where
  | star : GTok
  | qmark : GTok
  | cls : Bool → List Char → GTok
  | lit : Char → GTok
deriving DecidableEq

/-- Parser mode while scanning a glob pattern. -/
inductive GMode where
  | norm : GMode
  | esc : GMode
  | clsNew : GMode
  | clsBody : Bool → List Char → GMode
deriving DecidableEq

/-- One step of the glob pattern scanner (tokens are accumulated in
reverse order). -/
def globStep : List GTok × GMode → Char → List GTok × GMode
  | (ts, GMode.norm), c =>
    if c = '*' then (GTok.star :: ts, GMode.norm)
    else if c = '?' then (GTok.qmark :: ts, GMode.norm)
    else if c = '\\' then (ts, GMode.esc)
    else if c = '[' then (ts, GMode.clsNew)
    else (GTok.lit c :: ts, GMode.norm)
  | (ts, GMode.esc), c => (GTok.lit c :: ts, GMode.norm)
  | (ts, GMode.clsNew), c =>
    if c = '!' then (ts, GMode.clsBody true [])
    else if c = ']' then (GTok.cls false [] :: ts, GMode.norm)
    else (ts, GMode.clsBody false [c])
  | (ts, GMode.clsBody neg acc), c =>
    if c = ']' then (GTok.cls neg acc.reverse :: ts, GMode.norm)
    else (ts, GMode.clsBody neg (c :: acc))

/-- Compile a glob pattern (as a character list).  Returns `none` when the
pattern is malformed: an unterminated character class or a trailing
escape, as in `glob.Compile` of gobwas/glob. -/
def globParse (cs : List Char) : Option (List GTok) :=
  match cs.foldl globStep ([], GMode.norm) with
  | (ts, GMode.norm) => some ts.reverse
  | _ => none

/-- `glob.Compile` on a pattern string: `none` models a compile error. -/
def globCompile (p : String) : Option (List GTok) :=
  globParse p.data

/-- All suffixes of a character list (including the list itself and `[]`). -/
def allSuffixes : List Char → List (List Char)
  | [] => [[]]
  | c :: cs => (c :: cs) :: allSuffixes cs

/-- Does a single character match a (possibly negated) character class. -/
def clsMatch (neg : Bool) (chars : List Char) (c : Char) : Bool :=
  if neg then !(chars.contains c) else chars.contains c

/-- Advance the set of reachable candidate suffixes by one glob token. -/
def stepTok (t : GTok) (ss : List (List Char)) : List (List Char) :=
  match t with
  | GTok.star => (ss.map allSuffixes).flatten
  | GTok.qmark => ss.filterMap (fun s => s.tail?)
  | GTok.cls neg chars => ss.filterMap (fun s =>
      match s with
      | [] => none
      | c :: rest => if clsMatch neg chars c then some rest else none)
  | GTok.lit d => ss.filterMap (fun s =>
      match s with
      | [] => none
      | c :: rest => if c = d then some rest else none)

/-- `g.Match(s)`: the compiled glob consumes the whole candidate. -/
def tokMatch (ts : List GTok) (cs : List Char) : Bool :=
  (ts.foldl (fun ss t => stepTok t ss) [cs]).contains []

/-- `g.Match` on a candidate string. -/
def globMatchStr (g : List GTok) (s : String) : Bool :=
  tokMatch g s.data

/-- `globStringSet.match`: scan the patterns in the order of `List()`
(sorted); a pattern that fails to compile makes the whole call return
`false`; otherwise return `true` on the first pattern matching `m`. -/
def gssMatch : List String → String → Bool
  | [], _ => false
  | item :: rest, m =>
    match globCompile item with
    | none => false
    | some g => if globMatchStr g m then true else gssMatch rest m

/-- The `IncludesExcludes` struct: an include pattern set and an exclude
pattern set, each held as the sorted duplicate-free list of its members. -/
structure IncludesExcludes where
  includes : List String
  excludes : List String

/-- `NewIncludesExcludes()`. -/
def NewIncludesExcludes : IncludesExcludes :=
  { includes := [], excludes := [] }

/-- `IncludesExcludes.Includes`: insert items into the includes set. -/
def IncludesExcludes.Includes (ie : IncludesExcludes) (items : List String) : IncludesExcludes :=
  { ie with includes := items.foldl (fun s x => insertSorted x s) ie.includes }

/-- `IncludesExcludes.GetIncludes`: the includes list, as `List()` returns it. -/
def IncludesExcludes.GetIncludes (ie : IncludesExcludes) : List String :=
  ie.includes

/-- `IncludesExcludes.Excludes`: insert items into the excludes set. -/
def IncludesExcludes.Excludes (ie : IncludesExcludes) (items : List String) : IncludesExcludes :=
  { ie with excludes := items.foldl (fun s x => insertSorted x s) ie.excludes }

/-- `IncludesExcludes.GetExcludes`: the excludes list, as `List()` returns it. -/
def IncludesExcludes.GetExcludes (ie : IncludesExcludes) : List String :=
  ie.excludes

/-- `IncludesExcludes.ShouldInclude`: excluded if the excludes set matches;
otherwise included iff the includes set is empty, has the literal `*`, or
matches the candidate. -/
def IncludesExcludes.ShouldInclude (ie : IncludesExcludes) (s : String) : Bool :=
  if gssMatch ie.excludes s then false
  else ie.includes.length == 0 || ie.includes.contains "*" || gssMatch ie.includes s

/-- `IncludesExcludes.IncludeEverything`. -/
def IncludesExcludes.IncludeEverything (ie : IncludesExcludes) : Bool :=
  ie.excludes.length == 0 &&
    (ie.includes.length == 0 || (ie.includes.length == 1 && ie.includes.contains "*"))

/-- `ValidateIncludesExcludes`, with each violation rendered as its message
text (the messages are paraphrased without punctuation that Lean string
literals would obscure; only their count and identity per rule matter). -/
def ValidateIncludesExcludes (includesList excludesList : List String) : List String :=
  (if 1 < (NewStringSet includesList).length ∧ (NewStringSet includesList).contains "*" = true
   then ["includes list must either contain the wildcard only, or a non-empty list of items"]
   else [])
  ++ (if (NewStringSet excludesList).contains "*" = true then
        ["excludes list cannot contain the wildcard"]
      else [])
  ++ ((NewStringSet excludesList).filter
        (fun itm => (NewStringSet includesList).contains itm)).map
      (fun itm => "excludes list cannot contain an item in the includes list: " ++ itm)

/-- The body of the includes loop of `GenerateIncludesExcludes`. -/
def genIncStep (mapFunc : String → String) (res : IncludesExcludes) (item : String) : IncludesExcludes :=
  if item = "*" then res.Includes [item]
  else
    let key := mapFunc item
    if key = "" then res
    else res.Includes [key]

/-- The body of the excludes loop of `GenerateIncludesExcludes`:
wildcards are invalid for excludes, so they are ignored. -/
def genExcStep (mapFunc : String → String) (res : IncludesExcludes) (item : String) : IncludesExcludes :=
  if item = "*" then res
  else
    let key := mapFunc item
    if key = "" then res
    else res.Excludes [key]

/-- `GenerateIncludesExcludes`: map every non-wildcard entry, dropping the
ones whose image is the empty string. -/
def GenerateIncludesExcludes (includes excludes : List String) (mapFunc : String → String) : IncludesExcludes :=
  excludes.foldl (genExcStep mapFunc) (includes.foldl (genIncStep mapFunc) NewIncludesExcludes)

/-- Modelled from the spec: the discovery helper collaborator
(`discovery.Helper.ResourceFor`, not part of this repository) resolves a
group/resource string to a fully-qualified group-resource string or fails;
it is embedded as a function to `Option String`.  The mapping function of
`GetResourceIncludesExcludes` returns the item as-is when resolution
fails. -/
def resourceMapFunc (resourceFor : String → Option String) (item : String) : String :=
  match resourceFor item with
  | none => item
  | some gr => gr

/-- `GetResourceIncludesExcludes`, parameterized by the resolver. -/
def GetResourceIncludesExcludes (resourceFor : String → Option String)
    (includes excludes : List String) : IncludesExcludes :=
  GenerateIncludesExcludes includes excludes (resourceMapFunc resourceFor)

/-- A string list is sorted for the lexicographic order `strLt`. -/
def StrSorted (l : List String) : Prop :=
  l.Pairwise (fun a b => strLt a b = true)

theorem charLt_iff (a b : Char) : charLt a b = true ↔ a.toNat < b.toNat := by
  simp [charLt, Nat.blt_eq]

theorem char_eq_of_not_lt {a b : Char} (h1 : charLt a b = false) (h2 : charLt b a = false) :
    a = b := by
  have ha : ¬a.toNat < b.toNat := by
    intro h; rw [← charLt_iff] at h; rw [h1] at h; cases h
  have hb : ¬b.toNat < a.toNat := by
    intro h; rw [← charLt_iff] at h; rw [h2] at h; cases h
  have : a.toNat = b.toNat := Nat.le_antisymm (Nat.not_lt.mp hb) (Nat.not_lt.mp ha)
  apply Char.eq_of_val_eq
  apply UInt32.eq_of_toBitVec_eq
  exact BitVec.eq_of_toNat_eq this

theorem charLt_irrefl (a : Char) : charLt a a = false := by
  cases h : charLt a a
  · rfl
  · rw [charLt_iff] at h
    exact absurd h (Nat.lt_irrefl _)

theorem charLt_asymm {a b : Char} (h1 : charLt a b = true) (h2 : charLt b a = true) : False := by
  rw [charLt_iff] at h1 h2
  exact absurd h1 (Nat.lt_asymm h2)

theorem charLt_trans {a b c : Char} (h1 : charLt a b = true) (h2 : charLt b c = true) :
    charLt a c = true := by
  rw [charLt_iff] at h1 h2 ⊢
  exact Nat.lt_trans h1 h2

theorem charListLt_nil_right : ∀ (l : List Char), charListLt l [] = false
  | [] => rfl
  | _ :: _ => rfl

theorem charListLt_asymm : ∀ {l1 l2 : List Char},
    charListLt l1 l2 = true → charListLt l2 l1 = true → False
  | [], [], h1, _ => by simp [charListLt] at h1
  | [], _ :: _, _, h2 => by simp [charListLt] at h2
  | _ :: _, [], h1, _ => by simp [charListLt] at h1
  | a :: as, b :: bs, h1, h2 => by
    simp only [charListLt] at h1 h2
    cases hab : charLt a b with
    | true =>
      cases hba : charLt b a with
      | true => exact charLt_asymm hab hba
      | false => simp [hab, hba] at h2
    | false =>
      cases hba : charLt b a with
      | true => simp [hab, hba] at h1
      | false =>
        simp [hab, hba] at h1 h2
        exact charListLt_asymm h1 h2

theorem charListLt_trans : ∀ {l1 l2 l3 : List Char},
    charListLt l1 l2 = true → charListLt l2 l3 = true → charListLt l1 l3 = true
  | [], _, _ :: _, _, _ => by simp [charListLt]
  | _, l2, [], _, h2 => absurd h2 (by rw [charListLt_nil_right]; simp)
  | a :: as, [], _ :: _, h1, _ => by rw [charListLt_nil_right] at h1; cases h1
  | a :: as, b :: bs, c :: cs, h1, h2 => by
    simp only [charListLt] at h1 h2 ⊢
    cases hab : charLt a b with
    | true =>
      cases hbc : charLt b c with
      | true => simp [charLt_trans hab hbc]
      | false =>
        cases hcb : charLt c b with
        | true => simp [hbc, hcb] at h2
        | false =>
          have heq := char_eq_of_not_lt hbc hcb
          subst heq
          simp [hab]
    | false =>
      cases hba : charLt b a with
      | true => simp [hab, hba] at h1
      | false =>
        have heq := char_eq_of_not_lt hab hba
        subst heq
        simp [charLt_irrefl] at h1
        cases hac : charLt a c with
        | true => simp [hac]
        | false =>
          cases hca : charLt c a with
          | true => simp [hac, hca] at h2
          | false =>
            have heq2 := char_eq_of_not_lt hac hca
            subst heq2
            simp [charLt_irrefl] at h2 ⊢
            exact charListLt_trans h1 h2

theorem charListLt_total : ∀ {l1 l2 : List Char}, l1 ≠ l2 →
    charListLt l1 l2 = false → charListLt l2 l1 = true
  | [], [], hne, _ => absurd rfl hne
  | [], _ :: _, _, h => by simp [charListLt] at h
  | _ :: _, [], _, _ => by simp [charListLt]
  | a :: as, b :: bs, hne, h => by
    simp only [charListLt] at h ⊢
    cases hab : charLt a b with
    | true => simp [hab] at h
    | false =>
      cases hba : charLt b a with
      | true => simp [hba]
      | false =>
        have heq := char_eq_of_not_lt hab hba
        subst heq
        simp [charLt_irrefl] at h ⊢
        apply charListLt_total _ h
        intro hcontra
        exact hne (by rw [hcontra])

theorem strLt_asymm {a b : String} (h1 : strLt a b = true) (h2 : strLt b a = true) : False :=
  charListLt_asymm h1 h2

theorem strLt_irrefl (a : String) : strLt a a = false := by
  cases h : strLt a a
  · rfl
  · exact (charListLt_asymm h h).elim

theorem strLt_trans {a b c : String} (h1 : strLt a b = true) (h2 : strLt b c = true) :
    strLt a c = true :=
  charListLt_trans h1 h2

theorem strLt_total {a b : String} (hne : a ≠ b) (h : strLt a b = false) : strLt b a = true := by
  apply charListLt_total _ h
  intro hdata
  exact hne (String.ext hdata)

theorem mem_insertSorted {x y : String} : ∀ {l : List String},
    x ∈ insertSorted y l ↔ x = y ∨ x ∈ l := by
  intro l
  induction l with
  | nil => simp [insertSorted]
  | cons z zs ih =>
    simp only [insertSorted]
    split
    · next h1 =>
      subst h1
      simp only [List.mem_cons]
      tauto
    · split
      · simp only [List.mem_cons]
      · simp only [List.mem_cons, ih]
        tauto

theorem bool_eq_false {b : Bool} (h : ¬b = true) : b = false := by
  cases b
  · rfl
  · exact absurd rfl h

theorem sorted_insertSorted {x : String} : ∀ {l : List String},
    StrSorted l → StrSorted (insertSorted x l) := by
  intro l
  induction l with
  | nil =>
    intro _
    exact List.pairwise_singleton _ _
  | cons y ys ih =>
    intro h
    have hy : ∀ b ∈ ys, strLt y b = true := (List.pairwise_cons.mp h).1
    have hys : StrSorted ys := (List.pairwise_cons.mp h).2
    simp only [insertSorted]
    split
    · exact h
    · split
      · next h1 h2 =>
        apply List.Pairwise.cons
        · intro b hb
          rcases List.mem_cons.mp hb with hb1 | hb2
          · rw [hb1]; exact h2
          · exact strLt_trans h2 (hy b hb2)
        · exact h
      · next h1 h2 =>
        have hyx : strLt y x = true := strLt_total h1 (bool_eq_false h2)
        apply List.Pairwise.cons
        · intro b hb
          rcases mem_insertSorted.mp hb with hb1 | hb2
          · rw [hb1]; exact hyx
          · exact hy b hb2
        · exact ih hys

theorem sorted_foldl_insertSorted : ∀ (l acc : List String), StrSorted acc →
    StrSorted (l.foldl (fun s x => insertSorted x s) acc)
  | [], _, h => h
  | _ :: xs, _, h => sorted_foldl_insertSorted xs _ (sorted_insertSorted h)

theorem sorted_NewStringSet (l : List String) : StrSorted (NewStringSet l) :=
  sorted_foldl_insertSorted l [] List.Pairwise.nil

theorem mem_foldl_insertSorted {x : String} : ∀ (l acc : List String),
    (x ∈ l.foldl (fun s y => insertSorted y s) acc ↔ x ∈ acc ∨ x ∈ l) := by
  intro l
  induction l with
  | nil => intro acc; simp
  | cons y ys ih =>
    intro acc
    rw [List.foldl_cons, ih, mem_insertSorted]
    simp only [List.mem_cons]
    tauto

theorem mem_NewStringSet {x : String} (l : List String) : x ∈ NewStringSet l ↔ x ∈ l := by
  rw [NewStringSet, mem_foldl_insertSorted]
  simp

theorem insertSorted_idem (x : String) : ∀ (l : List String),
    insertSorted x (insertSorted x l) = insertSorted x l := by
  intro l
  induction l with
  | nil => simp [insertSorted]
  | cons y ys ih =>
    simp only [insertSorted]
    split
    · next h1 => simp [insertSorted, h1]
    · split
      · simp [insertSorted]
      · next h1 h2 =>
        rw [insertSorted, if_neg h1, if_neg h2, ih]

theorem count_insertSorted {x : String} : ∀ {l : List String}, StrSorted l →
    (insertSorted x l).count x = 1 := by
  intro l
  induction l with
  | nil =>
    intro _
    simp [insertSorted]
  | cons y ys ih =>
    intro h
    have hy : ∀ b ∈ ys, strLt y b = true := (List.pairwise_cons.mp h).1
    have hys : StrSorted ys := (List.pairwise_cons.mp h).2
    simp only [insertSorted]
    split
    · next h1 =>
      subst h1
      have hzero : ys.count x = 0 := by
        rw [List.count_eq_zero]
        intro hmem
        have hc := hy x hmem
        rw [strLt_irrefl] at hc
        cases hc
      simp [List.count_cons, hzero]
    · split
      · next h1 h2 =>
        have hzero : (y :: ys).count x = 0 := by
          rw [List.count_eq_zero]
          intro hmem
          rcases List.mem_cons.mp hmem with h3 | h3
          · exact h1 h3
          · have hc := strLt_trans h2 (hy x h3)
            rw [strLt_irrefl] at hc
            cases hc
        simp [List.count_cons, hzero]
      · next h1 h2 =>
        have hne : (y == x) = false := by
          rw [beq_eq_false_iff_ne]
          intro he
          exact h1 he.symm
        simp [List.count_cons, hne, ih hys]

theorem sorted_eq_of_mem : ∀ {l1 l2 : List String}, StrSorted l1 → StrSorted l2 →
    (∀ x, x ∈ l1 ↔ x ∈ l2) → l1 = l2
  | [], [], _, _, _ => rfl
  | [], b :: bs, _, _, hmem => by
    have hb := (hmem b).mpr (List.mem_cons_self b bs)
    simp at hb
  | a :: as, [], _, _, hmem => by
    have ha := (hmem a).mp (List.mem_cons_self a as)
    simp at ha
  | a :: as, b :: bs, h1, h2, hmem => by
    have h1' := List.pairwise_cons.mp h1
    have h2' := List.pairwise_cons.mp h2
    have hab : a = b := by
      by_contra hne
      have ha := (hmem a).mp (List.mem_cons_self a as)
      have hb := (hmem b).mpr (List.mem_cons_self b bs)
      rcases List.mem_cons.mp ha with h3 | h3
      · exact hne h3
      · rcases List.mem_cons.mp hb with h4 | h4
        · exact hne h4.symm
        · exact strLt_asymm (h2'.1 a h3) (h1'.1 b h4)
    subst hab
    have htail : ∀ x, x ∈ as ↔ x ∈ bs := by
      intro x
      constructor
      · intro hx
        have hm := (hmem x).mp (List.mem_cons_of_mem a hx)
        rcases List.mem_cons.mp hm with h3 | h3
        · have hc := h1'.1 x hx
          rw [h3, strLt_irrefl] at hc
          cases hc
        · exact h3
      · intro hx
        have hm := (hmem x).mpr (List.mem_cons_of_mem a hx)
        rcases List.mem_cons.mp hm with h3 | h3
        · have hc := h2'.1 x hx
          rw [h3, strLt_irrefl] at hc
          cases hc
        · exact h3
    rw [sorted_eq_of_mem h1'.2 h2'.2 htail]

theorem NewStringSet_perm {l1 l2 : List String} (h : l1.Perm l2) :
    NewStringSet l1 = NewStringSet l2 :=
  sorted_eq_of_mem (sorted_NewStringSet l1) (sorted_NewStringSet l2)
    (fun x => by rw [mem_NewStringSet, mem_NewStringSet]; exact h.mem_iff)

theorem nil_mem_allSuffixes : ∀ (cs : List Char), [] ∈ allSuffixes cs
  | [] => List.mem_singleton.mpr rfl
  | _ :: cs => List.mem_cons_of_mem _ (nil_mem_allSuffixes cs)

theorem globCompile_star : globCompile "*" = some [GTok.star] := rfl

theorem tokMatch_star (cs : List Char) : tokMatch [GTok.star] cs = true := by
  simp only [tokMatch, List.foldl_cons, List.foldl_nil, stepTok, List.map_cons, List.map_nil,
    List.flatten_cons, List.flatten_nil, List.append_nil]
  rw [List.contains_eq_any_beq]
  rw [List.any_eq_true]
  exact ⟨[], nil_mem_allSuffixes cs, by simp⟩

theorem gssMatch_star_mem : ∀ (l : List String) (c : String), "*" ∈ l →
    (∀ p ∈ l, (globCompile p).isSome = true) → gssMatch l c = true := by
  intro l
  induction l with
  | nil =>
    intro c h _
    simp at h
  | cons p ps ih =>
    intro c hstar hok
    have hsome := hok p (List.mem_cons_self p ps)
    obtain ⟨g, hg⟩ := Option.isSome_iff_exists.mp hsome
    simp only [gssMatch, hg]
    cases hm : globMatchStr g c with
    | true => simp
    | false =>
      simp only [hm, Bool.false_eq_true, if_false]
      rcases List.mem_cons.mp hstar with h1 | h1
      · rw [← h1, globCompile_star] at hg
        have hgeq : g = [GTok.star] := (Option.some.inj hg).symm
        rw [hgeq] at hm
        rw [globMatchStr, tokMatch_star] at hm
        cases hm
      · exact ih c h1 (fun q hq => hok q (List.mem_cons_of_mem _ hq))

theorem gssMatch_bad_before : ∀ (pre : List String) (bad : String) (rest : List String)
    (c : String), globCompile bad = none →
    (∀ p ∈ pre, ∀ g, globCompile p = some g → globMatchStr g c = false) →
    gssMatch (pre ++ bad :: rest) c = false := by
  intro pre
  induction pre with
  | nil =>
    intro bad rest c hbad _
    simp only [List.nil_append, gssMatch, hbad]
  | cons p ps ih =>
    intro bad rest c hbad hpre
    cases hg : globCompile p with
    | none => simp only [List.cons_append, gssMatch, hg]
    | some g =>
      have hm := hpre p (List.mem_cons_self p ps) g hg
      simp only [List.cons_append, gssMatch, hg, hm, Bool.false_eq_true, if_false]
      exact ih bad rest c hbad (fun q hq => hpre q (List.mem_cons_of_mem _ hq))

theorem includes_Includes_single (ie : IncludesExcludes) (x : String) :
    (ie.Includes [x]).includes = insertSorted x ie.includes := rfl

theorem excludes_Excludes_single (ie : IncludesExcludes) (x : String) :
    (ie.Excludes [x]).excludes = insertSorted x ie.excludes := rfl

theorem genIncStep_excludes (f : String → String) (r : IncludesExcludes) (i : String) :
    (genIncStep f r i).excludes = r.excludes := by
  rw [genIncStep]
  split
  · rfl
  · dsimp only
    split
    · rfl
    · rfl

theorem genExcStep_includes (f : String → String) (r : IncludesExcludes) (i : String) :
    (genExcStep f r i).includes = r.includes := by
  rw [genExcStep]
  split
  · rfl
  · dsimp only
    split
    · rfl
    · rfl

theorem foldl_genIncStep_excludes (f : String → String) : ∀ (l : List String)
    (r : IncludesExcludes), (l.foldl (genIncStep f) r).excludes = r.excludes
  | [], _ => rfl
  | i :: is, r => by
    rw [List.foldl_cons, foldl_genIncStep_excludes f is _, genIncStep_excludes]

theorem foldl_genExcStep_includes (f : String → String) : ∀ (l : List String)
    (r : IncludesExcludes), (l.foldl (genExcStep f) r).includes = r.includes
  | [], _ => rfl
  | i :: is, r => by
    rw [List.foldl_cons, foldl_genExcStep_includes f is _, genExcStep_includes]

theorem mem_genIncStep (f : String → String) (r : IncludesExcludes) (i x : String) :
    x ∈ (genIncStep f r i).includes ↔
      x ∈ r.includes ∨ ((i = "*" ∧ x = "*") ∨ (i ≠ "*" ∧ f i ≠ "" ∧ x = f i)) := by
  by_cases h1 : i = "*"
  · rw [genIncStep, if_pos h1, includes_Includes_single, mem_insertSorted]
    subst h1
    tauto
  · rw [genIncStep, if_neg h1]
    dsimp only
    by_cases h2 : f i = ""
    · rw [if_pos h2]
      tauto
    · rw [if_neg h2, includes_Includes_single, mem_insertSorted]
      tauto

theorem mem_genExcStep (f : String → String) (r : IncludesExcludes) (i x : String) :
    x ∈ (genExcStep f r i).excludes ↔
      x ∈ r.excludes ∨ (i ≠ "*" ∧ f i ≠ "" ∧ x = f i) := by
  by_cases h1 : i = "*"
  · rw [genExcStep, if_pos h1]
    tauto
  · rw [genExcStep, if_neg h1]
    dsimp only
    by_cases h2 : f i = ""
    · rw [if_pos h2]
      tauto
    · rw [if_neg h2, excludes_Excludes_single, mem_insertSorted]
      tauto

theorem mem_foldl_genIncStep (f : String → String) : ∀ (l : List String)
    (r : IncludesExcludes) (x : String),
    (x ∈ (l.foldl (genIncStep f) r).includes ↔
      x ∈ r.includes ∨ ∃ i ∈ l, (i = "*" ∧ x = "*") ∨ (i ≠ "*" ∧ f i ≠ "" ∧ x = f i)) := by
  intro l
  induction l with
  | nil =>
    intro r x
    simp
  | cons i is ih =>
    intro r x
    rw [List.foldl_cons, ih, mem_genIncStep]
    simp only [List.mem_cons, exists_eq_or_imp]
    exact or_assoc

theorem mem_foldl_genExcStep (f : String → String) : ∀ (l : List String)
    (r : IncludesExcludes) (x : String),
    (x ∈ (l.foldl (genExcStep f) r).excludes ↔
      x ∈ r.excludes ∨ ∃ i ∈ l, i ≠ "*" ∧ f i ≠ "" ∧ x = f i) := by
  intro l
  induction l with
  | nil =>
    intro r x
    simp
  | cons i is ih =>
    intro r x
    rw [List.foldl_cons, ih, mem_genExcStep]
    simp only [List.mem_cons, exists_eq_or_imp]
    exact or_assoc

theorem mem_generate_includes (incl excl : List String) (f : String → String) (x : String) :
    x ∈ (GenerateIncludesExcludes incl excl f).GetIncludes ↔
      ("*" ∈ incl ∧ x = "*") ∨ ∃ i ∈ incl, i ≠ "*" ∧ f i ≠ "" ∧ x = f i := by
  rw [IncludesExcludes.GetIncludes, GenerateIncludesExcludes, foldl_genExcStep_includes,
    mem_foldl_genIncStep]
  constructor
  · intro h
    rcases h with h | ⟨i, hi, h⟩
    · simp [NewIncludesExcludes] at h
    · rcases h with ⟨h1, h2⟩ | h
      · exact Or.inl ⟨h1 ▸ hi, h2⟩
      · exact Or.inr ⟨i, hi, h⟩
  · intro h
    rcases h with ⟨h1, h2⟩ | ⟨i, hi, h⟩
    · exact Or.inr ⟨"*", h1, Or.inl ⟨rfl, h2⟩⟩
    · exact Or.inr ⟨i, hi, Or.inr h⟩

theorem mem_generate_excludes (incl excl : List String) (f : String → String) (x : String) :
    x ∈ (GenerateIncludesExcludes incl excl f).GetExcludes ↔
      ∃ e ∈ excl, e ≠ "*" ∧ f e ≠ "" ∧ x = f e := by
  rw [IncludesExcludes.GetExcludes, GenerateIncludesExcludes, mem_foldl_genExcStep,
    foldl_genIncStep_excludes]
  simp [NewIncludesExcludes]

theorem contains_iff {l : List String} {a : String} : l.contains a = true ↔ a ∈ l := by
  simp

/-- C1: `ShouldInclude` implements exclude-wins semantics: for every filter
state and candidate `c`, if the exclude set matches `c` then the result is
`false` regardless of the includes; otherwise the result is `true` iff the
include set is empty, contains the literal `*`, or matches `c`. -/
theorem shouldInclude_exclude_wins (ie : IncludesExcludes) (c : String) :
    ie.ShouldInclude c = true ↔
      gssMatch ie.excludes c = false ∧
        (ie.includes = [] ∨ ie.includes.contains "*" = true ∨
          gssMatch ie.includes c = true) := by
  rw [IncludesExcludes.ShouldInclude]
  cases h : gssMatch ie.excludes c with
  | true => simp [h]
  | false =>
    simp only [h, Bool.false_eq_true, if_false, Bool.or_eq_true, beq_iff_eq,
      List.length_eq_zero]
    tauto

/-- C3: `IncludeEverything` is `true` iff the exclude set is empty and the
include set is empty or exactly the singleton containing the wildcard. -/
theorem includeEverything_iff (ie : IncludesExcludes) :
    ie.IncludeEverything = true ↔
      ie.excludes = [] ∧ (ie.includes = [] ∨ ie.includes = ["*"]) := by
  rw [IncludesExcludes.IncludeEverything]
  simp only [Bool.and_eq_true, Bool.or_eq_true, beq_iff_eq, List.length_eq_zero]
  constructor
  · rintro ⟨h1, h2⟩
    refine ⟨h1, ?_⟩
    rcases h2 with h2 | ⟨h2, h3⟩
    · exact Or.inl h2
    · right
      rw [contains_iff] at h3
      cases hl : ie.includes with
      | nil => rw [hl] at h2; cases h2
      | cons a as =>
        cases as with
        | nil =>
          rw [hl] at h3
          rcases List.mem_singleton.mp h3 with h4
          rw [h4]
        | cons b bs =>
          rw [hl] at h2
          simp at h2
  · rintro ⟨h1, h2⟩
    refine ⟨h1, ?_⟩
    rcases h2 with h2 | h2
    · exact Or.inl h2
    · right
      rw [h2]
      exact ⟨rfl, by decide⟩

/-- C7: adding a pattern is idempotent for duplicates: starting from any
sequence of earlier additions, adding `x` twice yields the same includes
list as adding it once, the same size, and the list then holds `x` exactly
once. -/
theorem includes_add_idempotent (prior : List String) (x : String) :
    (((NewIncludesExcludes.Includes prior).Includes [x]).Includes [x]).GetIncludes
        = ((NewIncludesExcludes.Includes prior).Includes [x]).GetIncludes
      ∧ ((((NewIncludesExcludes.Includes prior).Includes [x]).Includes [x]).GetIncludes).length
        = (((NewIncludesExcludes.Includes prior).Includes [x]).GetIncludes).length
      ∧ (((NewIncludesExcludes.Includes prior).Includes [x]).GetIncludes).count x = 1 := by
  have hbase : (NewIncludesExcludes.Includes prior).includes = NewStringSet prior := rfl
  have h1 : ((NewIncludesExcludes.Includes prior).Includes [x]).GetIncludes
      = insertSorted x (NewStringSet prior) := by
    rw [IncludesExcludes.GetIncludes, includes_Includes_single, hbase]
  have h2 : (((NewIncludesExcludes.Includes prior).Includes [x]).Includes [x]).GetIncludes
      = insertSorted x (insertSorted x (NewStringSet prior)) := by
    rw [IncludesExcludes.GetIncludes, includes_Includes_single, includes_Includes_single, hbase]
  refine ⟨?_, ?_, ?_⟩
  · rw [h1, h2, insertSorted_idem]
  · rw [h1, h2, insertSorted_idem]
  · rw [h1]
    exact count_insertSorted (sorted_NewStringSet prior)

/-- C10: the wildcard drop in the excludes loop of the Generator inspects
the raw entry, not the mapped result: with a mapping function returning
the literal `*` and a raw excludes list `[x]` that does not contain `*`,
the generated excludes set contains `*`. -/
theorem generate_wildcard_after_map :
    "*" ∉ (["x"] : List String)
      ∧ "*" ∈ (GenerateIncludesExcludes [] ["x"] (fun _ => "*")).GetExcludes := by
  constructor
  · decide
  · decide

/-- C5: the Generator passes the literal `*` through unchanged into
includes, silently drops `*` from the raw excludes, applies the mapping
function to every other entry and drops entries whose image is the empty
string; in particular the two concrete examples from the spec hold. -/
theorem generate_spec :
    (∀ (incl excl : List String) (f : String → String) (x : String),
      (x ∈ (GenerateIncludesExcludes incl excl f).GetIncludes ↔
        ("*" ∈ incl ∧ x = "*") ∨ ∃ i ∈ incl, i ≠ "*" ∧ f i ≠ "" ∧ x = f i)
      ∧ (x ∈ (GenerateIncludesExcludes incl excl f).GetExcludes ↔
        ∃ e ∈ excl, e ≠ "*" ∧ f e ≠ "" ∧ x = f e))
    ∧ (GenerateIncludesExcludes ["*", "pods"] ["cm"] (fun s => s)).GetIncludes = ["*", "pods"]
    ∧ (GenerateIncludesExcludes ["*", "pods"] ["cm"] (fun s => s)).GetExcludes = ["cm"]
    ∧ (GenerateIncludesExcludes ["x"] [] (fun _ => "")).GetIncludes = [] := by
  refine ⟨?_, by decide, by decide, by decide⟩
  intro incl excl f x
  constructor
  · exact mem_generate_includes incl excl f x
  · exact mem_generate_excludes incl excl f x

theorem contains_NewStringSet (l : List String) (a : String) :
    (NewStringSet l).contains a = l.contains a := by
  by_cases hm : a ∈ l
  · rw [contains_iff.mpr hm, contains_iff.mpr ((mem_NewStringSet l).mpr hm)]
  · have h1 : l.contains a = false := bool_eq_false (fun hh => hm (contains_iff.mp hh))
    have h2 : (NewStringSet l).contains a = false :=
      bool_eq_false (fun hh => hm ((mem_NewStringSet l).mp (contains_iff.mp hh)))
    rw [h1, h2]

/-- C4: `ValidateIncludesExcludes` reports exactly one violation from the
wildcard-in-includes rule, exactly one from the wildcard-in-excludes rule,
and one per distinct item occurring in both lists; the three concrete
examples of the spec each yield exactly one violation, and the result is
empty when no rule is violated. -/
theorem validate_spec :
    (∀ incl excl : List String,
      (ValidateIncludesExcludes incl excl).length =
        (if 1 < (NewStringSet incl).length ∧ "*" ∈ incl then 1 else 0)
        + (if "*" ∈ excl then 1 else 0)
        + ((NewStringSet excl).filter (fun i => incl.contains i)).length)
    ∧ (ValidateIncludesExcludes ["*", "a"] []).length = 1
    ∧ (ValidateIncludesExcludes ["a"] ["*"]).length = 1
    ∧ (ValidateIncludesExcludes ["a"] ["a"]).length = 1
    ∧ (∀ incl excl : List String,
        ¬(1 < (NewStringSet incl).length ∧ "*" ∈ incl) → "*" ∉ excl →
        (∀ i ∈ excl, i ∉ incl) → ValidateIncludesExcludes incl excl = []) := by
  have hcond : ∀ l : List String, (NewStringSet l).contains "*" = true ↔ "*" ∈ l :=
    fun l => contains_iff.trans (mem_NewStringSet l)
  have hfil : ∀ incl excl : List String,
      (NewStringSet excl).filter (fun itm => (NewStringSet incl).contains itm)
        = (NewStringSet excl).filter (fun i => incl.contains i) := by
    intro incl excl
    exact List.filter_congr (fun a _ => contains_NewStringSet incl a)
  refine ⟨?_, by decide, by decide, by decide, ?_⟩
  · intro incl excl
    rw [ValidateIncludesExcludes, List.length_append, List.length_append, List.length_map,
      hfil incl excl]
    simp only [propext (hcond incl), propext (hcond excl)]
    by_cases h1 : 1 < (NewStringSet incl).length ∧ "*" ∈ incl
    · by_cases h2 : "*" ∈ excl
      · simp [h1, h2]
      · simp [h1, h2]
    · by_cases h2 : "*" ∈ excl
      · simp [h1, h2]
      · simp [h1, h2]
  · intro incl excl h1 h2 h3
    have c1 : ¬(1 < (NewStringSet incl).length ∧ (NewStringSet incl).contains "*" = true) := by
      rw [hcond incl]
      exact h1
    have c2 : ¬((NewStringSet excl).contains "*" = true) := by
      rw [hcond excl]
      exact h2
    have c3 : (NewStringSet excl).filter (fun itm => (NewStringSet incl).contains itm) = [] := by
      apply List.filter_eq_nil_iff.mpr
      intro a ha
      intro hc
      exact h3 a ((mem_NewStringSet excl).mp ha)
        ((mem_NewStringSet incl).mp (contains_iff.mp hc))
    rw [ValidateIncludesExcludes, if_neg c1, if_neg c2, c3]
    rfl

theorem validate_spec_witness : ValidateIncludesExcludes [] [] = [] :=
  validate_spec.2.2.2.2 [] [] (by decide) (by decide) (by decide)

/-- C2 counterexample: the pattern set built from `a` and `b[` contains the
pattern `b[`, which fails to compile, together with the pattern `a` equal
to the candidate, yet the match operation returns `true` — the sorted scan
finds the match on `a` before reaching the malformed pattern. -/
theorem glob_shortcircuit_counterexample :
    globCompile "b[" = none
      ∧ "b[" ∈ NewStringSet ["a", "b["]
      ∧ "a" ∈ NewStringSet ["a", "b["]
      ∧ gssMatch (NewStringSet ["a", "b["]) "a" = true :=
  ⟨rfl, by decide, by decide, by decide⟩

/-- C2 amended: a pattern that fails to compile makes the match operation
return `false` exactly for scans in which no pattern placed before it in
the scanned (sorted) list matches the candidate: for every decomposition
`pre ++ bad :: rest` with `bad` failing to compile and no pattern of `pre`
matching, the result is `false` — a malformed pattern only suppresses
matches of patterns at or after its sorted position. -/
theorem glob_shortcircuit_amended (pre : List String) (bad : String) (rest : List String)
    (c : String) (hbad : globCompile bad = none)
    (hpre : ∀ p ∈ pre, ∀ g, globCompile p = some g → globMatchStr g c = false) :
    gssMatch (pre ++ bad :: rest) c = false :=
  gssMatch_bad_before pre bad rest c hbad hpre

theorem glob_shortcircuit_amended_witness : gssMatch ["[", "a"] "a" = false :=
  glob_shortcircuit_amended [] "[" ["a"] "a" rfl (by simp)

/-- C6 counterexample: with a resolver that fails on every input and the
raw includes list containing only the empty string, the entry the resolver
fails on is dropped rather than kept: the generated includes set does not
contain it. -/
theorem resolver_fallback_counterexample :
    (fun _ : String => (none : Option String)) "" = none
      ∧ "" ∉ (GetResourceIncludesExcludes (fun _ => none) [""] []).GetIncludes :=
  ⟨rfl, by decide⟩

/-- C6 amended: for every entry other than the wildcard sentinel and the
empty string, if the resolver fails on it then the original unresolved
string is kept unchanged in the generated set (includes or excludes), and
the failure is never propagated; the empty-string entry is the one
exception, being dropped because its fallback image is the empty string. -/
theorem resolver_fallback_amended (resourceFor : String → Option String)
    (incl excl : List String) (item : String) (hfail : resourceFor item = none)
    (hstar : item ≠ "*") (hempty : item ≠ "") :
    (item ∈ incl → item ∈ (GetResourceIncludesExcludes resourceFor incl excl).GetIncludes)
      ∧ (item ∈ excl →
          item ∈ (GetResourceIncludesExcludes resourceFor incl excl).GetExcludes) := by
  have hmap : resourceMapFunc resourceFor item = item := by
    rw [resourceMapFunc, hfail]
  constructor
  · intro hmem
    rw [GetResourceIncludesExcludes, mem_generate_includes]
    exact Or.inr ⟨item, hmem, hstar, by rw [hmap]; exact hempty, hmap.symm⟩
  · intro hmem
    rw [GetResourceIncludesExcludes, mem_generate_excludes]
    exact ⟨item, hmem, hstar, by rw [hmap]; exact hempty, hmap.symm⟩

theorem resolver_fallback_amended_witness :
    "widgets" ∈ (GetResourceIncludesExcludes (fun _ => none) ["widgets"] []).GetIncludes :=
  (resolver_fallback_amended (fun _ => none) ["widgets"] [] "widgets" rfl (by decide)
    (by decide)).1 (by decide)

/-- C8 counterexample: an exclude set containing the literal `*` together
with the malformed pattern `![`, which sorts before `*`, does not exclude
everything: the scan hits the malformed pattern first, the exclude match
degrades to `false`, and with empty includes the candidate is included. -/
theorem wildcard_exclude_counterexample :
    "*" ∈ (NewIncludesExcludes.Excludes ["![", "*"]).GetExcludes
      ∧ (NewIncludesExcludes.Excludes ["![", "*"]).ShouldInclude "a" = true :=
  ⟨by decide, by decide⟩

/-- C8 amended: if the exclude set contains the literal `*` and every
exclude pattern compiles as a glob, then `ShouldInclude` is `false` for
every candidate, whatever the includes set contains. -/
theorem wildcard_exclude_amended (ie : IncludesExcludes) (c : String)
    (hstar : "*" ∈ ie.GetExcludes)
    (hok : ∀ p ∈ ie.GetExcludes, (globCompile p).isSome = true) :
    ie.ShouldInclude c = false := by
  rw [IncludesExcludes.ShouldInclude, gssMatch_star_mem ie.excludes c hstar hok]
  simp

theorem wildcard_exclude_amended_witness :
    (NewIncludesExcludes.Excludes ["*"]).ShouldInclude "x" = false :=
  wildcard_exclude_amended (NewIncludesExcludes.Excludes ["*"]) "x" (by decide) (by decide)

/-- C9: `GetIncludes` and `GetExcludes` return the stored patterns sorted
(for the lexicographic order on strings), independently of the order of
addition, and the match operation scans that sorted order: a malformed
pattern suppresses a match exactly when it precedes every matching pattern
in sorted order, as the two concrete scans show (`b[` sorts after `a` and
does not suppress the match; `([` sorts before `a` and does). -/
theorem getLists_sorted_spec :
    (∀ incs excs : List String,
        StrSorted (((NewIncludesExcludes.Includes incs).Excludes excs).GetIncludes)
      ∧ StrSorted (((NewIncludesExcludes.Includes incs).Excludes excs).GetExcludes))
    ∧ (∀ incs1 incs2 excs1 excs2 : List String, incs1.Perm incs2 → excs1.Perm excs2 →
        ((NewIncludesExcludes.Includes incs1).Excludes excs1).GetIncludes
          = ((NewIncludesExcludes.Includes incs2).Excludes excs2).GetIncludes
      ∧ ((NewIncludesExcludes.Includes incs1).Excludes excs1).GetExcludes
          = ((NewIncludesExcludes.Includes incs2).Excludes excs2).GetExcludes)
    ∧ gssMatch ((NewIncludesExcludes.Includes ["b[", "a"]).GetIncludes) "a" = true
    ∧ gssMatch ((NewIncludesExcludes.Includes ["a", "(["]).GetIncludes) "a" = false := by
  refine ⟨?_, ?_, by decide, by decide⟩
  · intro incs excs
    exact ⟨sorted_NewStringSet incs, sorted_NewStringSet excs⟩
  · intro incs1 incs2 excs1 excs2 hp1 hp2
    exact ⟨NewStringSet_perm hp1, NewStringSet_perm hp2⟩

theorem getLists_sorted_spec_witness :
    ((NewIncludesExcludes.Includes ["a", "b["]).Excludes []).GetIncludes
      = ((NewIncludesExcludes.Includes ["b[", "a"]).Excludes []).GetIncludes :=
  (getLists_sorted_spec.2.1 ["a", "b["] ["b[", "a"] [] [] (by decide) (List.Perm.refl [])).1
